import Mathlib

/-!
Verification of the go-guerrilla ChunkSaver stream processor
(src/chunk/processor.go, symbol `Chunksaver`).

The splitter logic (`sd.Open`, `sd.Close`, the `StreamProcessWith` write
function and `fillVars`) is translated directly from the source.  The chunk
buffer (`ChunkedBytesBufferMime`) and the storage engines
(`ChunkSaverMemory`, `ChunkSaverSQL`) are not among the sources under
review; they are modelled from the spec where indicated.

Modelling conventions:
* bytes are `Nat` values, a byte stream is `List Nat`;
* Go `uint` arithmetic uses explicit wrap-around modulo `2 ^ 64`
  (`usub`, `uadd`);
* Go's `nil` metadata map is distinguished from an empty-but-initialized
  map by using `Option (List (String × MetaVal))`;
* a Go slice expression `p[lo:hi]` is modelled by `goSlice`, which returns
  `none` on an out-of-range index (a Go runtime panic); the model equates
  the capacity of the input slice with its length;
* the downstream stage `sp.Write` is modelled as an infallible sink that
  appends the forwarded bytes to a `downstream` accumulator and returns
  their count, matching the pass-through contract of the pipeline;
* the fields `streamEnd` (on the buffer), `endPos` (on a chunk descriptor)
  and `delivered` (on the session) are ghost instrumentation recording
  absolute stream positions; they influence no control flow.
-/

/-- Go `uint` modulus. -/
def UintMod : Nat := 2 ^ 64

/-- Go unsigned subtraction `a - b` on `uint` (wraps modulo `2 ^ 64`). -/
def usub (a b : Nat) : Nat := (a + UintMod - b) % UintMod

/-- Go unsigned addition `a + b` on `uint` (wraps modulo `2 ^ 64`). -/
def uadd (a b : Nat) : Nat := (a + b) % UintMod

/-- Go slice expression `p[lo:hi]`: valid when `lo ≤ hi ∧ hi ≤ len p`
(capacity is equated with length), otherwise a runtime panic (`none`). -/
def goSlice (p : List Nat) (lo hi : Nat) : Option (List Nat) :=
  if lo ≤ hi ∧ hi ≤ p.length then some ((p.take hi).drop lo) else none

/-- One `mime.Part` as consumed by the splitter: the `Headers` map, the
`StartingPos` offset and the `StartingPosBody` offset. -/
structure MimePart where
  headers : List (String × List String)
  startingPos : Nat
  startingPosBody : Nat
  deriving DecidableEq, Repr

/-- Values stored in the envelope metadata map `e.Values`. -/
inductive MetaVal where
  | mimeParts (parts : List MimePart)
  | messageID (mid : Nat)
  | other (s : String)
  deriving DecidableEq, Repr

/-- The `mail.Envelope` fields read by the ChunkSaver.  `values` models
`e.Values`; `none` is Go's nil map, `some vs` an initialized map. -/
structure Envelope where
  mailFrom : String
  rcptTo : List String
  helo : String
  remoteIP : String
  tls : Bool
  queuedId : String
  values : Option (List (String × MetaVal))
  deriving DecidableEq, Repr

/-- First-match lookup in the metadata map (Go map keys are unique). -/
def lookupMeta (vals : List (String × MetaVal)) (k : String) : Option MetaVal :=
  match vals with
  | [] => none
  | (k2, v) :: rest => if k2 = k then some v else lookupMeta rest k

/-- Go map assignment `m[k] = v`: replace the binding or append it. -/
def mapSet (vals : List (String × MetaVal)) (k : String) (v : MetaVal) :
    List (String × MetaVal) :=
  match vals with
  | [] => [(k, v)]
  | (k2, v2) :: rest =>
    if k2 = k then (k2, v) :: rest else (k2, v2) :: mapSet rest k v

/-- First-match lookup in a part's header map. -/
def lookupHeader (hs : List (String × List String)) (k : String) :
    Option (List String) :=
  match hs with
  | [] => none
  | (k2, v) :: rest => if k2 = k then some v else lookupHeader rest k

/-- Chunk descriptor appended to the message manifest on flush.  The hash
is content-addressed; the model takes the content itself as the hash.
`endPos` is ghost instrumentation: the absolute stream position one past
the chunk's last byte. -/
structure ChunkInfo where
  hash : List Nat
  size : Nat
  part : Option MimePart
  endPos : Nat
  deriving DecidableEq, Repr

/-- Modelled from the spec: the chunk buffer `ChunkedBytesBufferMime`
(not among the sources under review).  It accumulates bytes for the
in-progress chunk up to `capSize`, carries the message manifest `info`
and the part association `current`.  `streamEnd` is ghost
instrumentation. -/
structure ChunkedBytesBufferMime where
  buf : List Nat
  capSize : Nat
  info : List ChunkInfo
  current : Option MimePart
  streamEnd : Nat
  deriving DecidableEq, Repr

/-- Modelled from the spec: the `ChunkSaverStorage` capability set
(`OpenMessage`, the dedup operation invoked by the buffer's flush, and
`CloseMessage`), with `Initialize`/`Shutdown` omitted as lifecycle-only.
`σ` is the engine's state; every operation may fail with a storage
error. -/
structure ChunkSaverStorage (σ : Type) where
  openMessage : σ → String → String → String → String → String → Bool →
    Except String (Nat × σ)
  dedupChunk : σ → List Nat → Except String σ
  closeMessage : σ → Nat → Nat → List ChunkInfo → String → String → String →
    String → Except String σ

/-- Modelled from the spec: a message record persisted by `CloseMessage`. -/
structure ClosedMessage where
  mid : Nat
  totalBytes : Nat
  manifest : List ChunkInfo
  subject : String
  queuedId : String
  toField : String
  fromField : String
  deriving DecidableEq, Repr

/-- Modelled from the spec: the in-memory storage engine
`ChunkSaverMemory` — a content-addressed, reference-counted chunk map
plus message bookkeeping.  Each entry of `chunks` is a stored payload
(its own hash) with its reference count. -/
structure ChunkSaverMemory where
  chunks : List (List Nat × Nat)
  nextID : Nat
  closed : List ClosedMessage
  deriving DecidableEq, Repr

/-- Modelled from the spec: the dedup operation — given a hash and
payload, if the chunk already exists increment its reference count,
otherwise persist it with reference count one. -/
def dedupMem (db : ChunkSaverMemory) (payload : List Nat) : ChunkSaverMemory :=
  if db.chunks.any (fun c => c.1 = payload) then
    { db with chunks :=
        db.chunks.map (fun c => if c.1 = payload then (c.1, c.2 + 1) else c) }
  else
    { db with chunks := db.chunks ++ [(payload, 1)] }

/-- The in-memory engine exposed through the storage capability set. -/
def memOps : ChunkSaverStorage ChunkSaverMemory where
  openMessage db _ _ _ _ _ _ := .ok (db.nextID, { db with nextID := db.nextID + 1 })
  dedupChunk db payload := .ok (dedupMem db payload)
  closeMessage db mid total manifest subj qid toF fromF :=
    .ok { db with closed :=
      db.closed ++ [⟨mid, total, manifest, subj, qid, toF, fromF⟩] }

/-- An empty in-memory store. -/
def emptyMemory : ChunkSaverMemory := ⟨[], 1, []⟩

/-- A storage engine whose dedup operation fails from the second call on
(the state counts dedup calls).  It exercises the `StorageError`
propagation path of the capability contract. -/
def failSecondDedup : ChunkSaverStorage Nat where
  openMessage n _ _ _ _ _ _ := .ok (1, n)
  dedupChunk n _ := if n ≥ 1 then .error "storage: dedup failed" else .ok (n + 1)
  closeMessage n _ _ _ _ _ _ _ := .ok n

/-- Modelled from the spec: `Flush` — a no-op on an empty buffer;
otherwise hash the accumulated bytes, run the dedup operation, append a
chunk descriptor (hash, size, current part) to the manifest and clear
the buffer. -/
def flushBuf {σ : Type} (ops : ChunkSaverStorage σ) (b : ChunkedBytesBufferMime)
    (db : σ) : Except String (ChunkedBytesBufferMime × σ) :=
  if b.buf = [] then .ok (b, db)
  else
    match ops.dedupChunk db b.buf with
    | .error e => .error e
    | .ok db2 =>
      .ok ({ b with
             buf := []
             info := b.info ++ [⟨b.buf, b.buf.length, b.current, b.streamEnd⟩] },
           db2)

/-- Modelled from the spec: the buffer's `Write` — append the bytes one
at a time, flushing whenever the accumulated size reaches the cap
(scenario E of the spec: cap 10 and a 25-byte span yield chunks of
10, 10 and a buffered 5).  Returns the count of bytes consumed, the new
buffer and engine state, and the first flush error if one occurred
(filling stops there).  `nextPos` is the ghost stream position of the
first byte of `q`. -/
def bufFill {σ : Type} (ops : ChunkSaverStorage σ) :
    ChunkedBytesBufferMime → σ → List Nat → Nat →
    Nat × ChunkedBytesBufferMime × σ × Option String
  | b, db, [], _ => (0, b, db, none)
  | b, db, x :: rest, nextPos =>
    let b2 := { b with buf := b.buf ++ [x], streamEnd := nextPos + 1 }
    if b2.buf.length ≥ b2.capSize then
      match flushBuf ops b2 db with
      | .error e => (1, b2, db, some e)
      | .ok (b3, db3) =>
        let r := bufFill ops b3 db3 rest (nextPos + 1)
        (r.1 + 1, r.2.1, r.2.2.1, r.2.2.2)
    else
      let r := bufFill ops b2 db rest (nextPos + 1)
      (r.1 + 1, r.2.1, r.2.2.1, r.2.2.2)

/-- Per-message session state captured by the `Chunksaver` closure:
`envelope`, `chunkBuffer`, `msgPos`, the engine state (`database`),
`written`, the captured `subject`/`to`/`from` headers and `progress`.
`downstream` models the bytes forwarded to the next stage; `delivered`
is the ghost count of bytes delivered to this stage. -/
structure SessionState (σ : Type) where
  envelope : Envelope
  chunkBuffer : ChunkedBytesBufferMime
  msgPos : Nat
  db : σ
  written : Nat
  subject : String
  toField : String
  fromField : String
  progress : Nat
  downstream : List Nat
  delivered : Nat
  deriving DecidableEq, Repr

/-- Modelled from the spec: `mail.NewAddress` (address normalization in
`fillVars`) is not among the sources under review; the spec requires
only that it either succeeds with a normalized form or fails, with
failure tolerated.  The model accepts strings containing an at-sign. -/
def NewAddress (s : String) : Except String String :=
  if s.contains '@' then .ok s else .error "invalid address"

/-- Modelled from the spec: `net.ParseIP` best-effort check; a malformed
remote IP is tolerated, not fatal. -/
def parseIPOk (s : String) : Bool := s.contains '.' || s.contains ':'

/-- Translation of `fillVars` (processor.go lines 179-205): capture
subject/to/from from the first part's headers when still empty; `To` and
`From` are normalized via `NewAddress`, a parse failure leaving the field
unchanged.  `none` models the Go panic `val[0]` on an empty header value
list. -/
def fillVars (parts : List MimePart) (subject toF fromF : String) :
    Option (String × String × String) :=
  match parts with
  | [] => some (subject, toF, fromF)
  | p0 :: _ =>
    let subjStep : Option String :=
      if subject = "" then
        match lookupHeader p0.headers "Subject" with
        | some [] => none
        | some (v :: _) => some v
        | none => some subject
      else some subject
    match subjStep with
    | none => none
    | some subj1 =>
      let toStep : Option String :=
        if toF = "" then
          match lookupHeader p0.headers "To" with
          | some [] => none
          | some (v :: _) =>
            match NewAddress v with
            | .ok a => some a
            | .error _ => some toF
          | none => some toF
        else some toF
      match toStep with
      | none => none
      | some to1 =>
        let fromStep : Option String :=
          if fromF = "" then
            match lookupHeader p0.headers "From" with
            | some [] => none
            | some (v :: _) =>
              match NewAddress v with
              | .ok a => some a
              | .error _ => some fromF
            | none => some fromF
          else some fromF
        match fromStep with
        | none => none
        | some from1 => some (subj1, to1, from1)

/-- Outcome of one iteration bundle of the write loop: the Go closure
state survives an error return (`flushErr`), while a slice-bounds panic
unwinds (`panicked`). -/
inductive LoopOut (σ : Type) where
  | ok (pos count : Nat) (buf : ChunkedBytesBufferMime) (db : σ)
      (msgPos written : Nat)
  | flushErr (msg : String) (count : Nat) (buf : ChunkedBytesBufferMime)
      (db : σ) (msgPos written : Nat)
  | panicked
  deriving DecidableEq, Repr

/-- Translation of one chunk cut in the write loop (processor.go lines
221-233 and 235-247): slice `p[pos : target-offset]` (uint subtraction),
write it to the buffer (the buffer error is discarded, as in
`count, _ = chunkBuffer.Write(...)`), add the count to `written`, flush
(propagating its error), set the current part, advance `pos` by the
count and set `msgPos` to `target`. -/
def cutAt {σ : Type} (ops : ChunkSaverStorage σ) (p : List Nat)
    (offset delivered pos : Nat) (buf : ChunkedBytesBufferMime) (db : σ)
    (msgPos written target : Nat) (part : MimePart) : LoopOut σ :=
  match goSlice p pos (usub target offset) with
  | none => .panicked
  | some slice =>
    let r := bufFill ops buf db slice (delivered + pos)
    let c := r.1
    let buf1 := r.2.1
    let db1 := r.2.2.1
    let written1 := written + c
    match flushBuf ops buf1 db1 with
    | .error e => .flushErr e c buf1 db1 msgPos written1
    | .ok (buf2, db2) =>
      .ok (pos + c) c { buf2 with current := some part } db2 target written1

/-- Translation of the last-part step of the write loop (processor.go
lines 248-254): when on the last known part and `len(p)-1 > pos`, write
the remaining input `p[pos:]` into the buffer (the buffer error being
discarded), count it toward `written`, and advance `pos` and `msgPos` by
the count; otherwise leave everything unchanged. -/
def lastPartWrite {σ : Type} (ops : ChunkSaverStorage σ) (p : List Nat)
    (delivered : Nat) (isLast : Bool) (pos2 count2 : Nat)
    (buf2 : ChunkedBytesBufferMime) (db2 : σ) (msgPos2 written2 : Nat) :
    Nat × Nat × ChunkedBytesBufferMime × σ × Nat × Nat :=
  if isLast ∧ (p.length : Int) - 1 > (pos2 : Int) then
    let r := bufFill ops buf2 db2 (p.drop pos2) (delivered + pos2)
    (pos2 + r.1, r.1, r.2.1, r.2.2.1, uadd msgPos2 r.1, written2 + r.1)
  else (pos2, count2, buf2, db2, msgPos2, written2)

/-- Sequencing of one loop stage: an error return or a panic aborts the
iteration, a success feeds the updated closure state to the next stage. -/
def loopSeq {σ : Type} (r : LoopOut σ)
    (k : Nat → Nat → ChunkedBytesBufferMime → σ → Nat → Nat → LoopOut σ) :
    LoopOut σ :=
  match r with
  | .panicked => .panicked
  | .flushErr e c b d m w => .flushErr e c b d m w
  | .ok pos count buf db msgPos written => k pos count buf db msgPos written

/-- Translation of the write loop (processor.go lines 217-259): for each
part from `progress` on, break the chunk on a new part
(`StartingPos > 0 && StartingPos > msgPos`), break the chunk on a header
(`StartingPosBody > 0 && StartingPosBody >= msgPos`), on the last part
write out any remaining input past the last boundary when
`len(p)-1 > pos`, and stop once `pos >= len(p)`. -/
def writeLoop {σ : Type} (ops : ChunkSaverStorage σ) (p : List Nat)
    (offset delivered : Nat) :
    List MimePart → Nat → Nat → ChunkedBytesBufferMime → σ → Nat → Nat →
    LoopOut σ
  | [], pos, count, buf, db, msgPos, written =>
    .ok pos count buf db msgPos written
  | part :: rest, pos, count, buf, db, msgPos, written =>
    loopSeq
      (if part.startingPos > 0 ∧ part.startingPos > msgPos then
        cutAt ops p offset delivered pos buf db msgPos written
          part.startingPos part
      else
        .ok pos count buf db msgPos written)
      (fun pos1 count1 buf1 db1 msgPos1 written1 =>
        loopSeq
          (if part.startingPosBody > 0 ∧ part.startingPosBody ≥ msgPos1 then
            cutAt ops p offset delivered pos1 buf1 db1 msgPos1 written1
              part.startingPosBody part
          else
            .ok pos1 count1 buf1 db1 msgPos1 written1)
          (fun pos2 count2 buf2 db2 msgPos2 written2 =>
            match lastPartWrite ops p delivered rest.isEmpty pos2 count2 buf2
                db2 msgPos2 written2 with
            | (pos3, count3, buf3, db3, msgPos3, written3) =>
              if pos3 ≥ p.length then
                .ok pos3 count3 buf3 db3 msgPos3 written3
              else writeLoop ops p offset delivered rest pos3 count3 buf3 db3
                msgPos3 written3))

/-- Result of one `Write` call on the stream processor. -/
inductive WriteResult (σ : Type) where
  | ok (count : Nat) (st : SessionState σ)
  | errored (count : Nat) (msg : String) (st : SessionState σ)
  | panicked
  deriving DecidableEq, Repr

/-- Translation of the `StreamProcessWith` write function (processor.go
lines 207-265): error out when `envelope.Values` is nil; when the
metadata carries a non-empty MIME-part list, capture headers, set the
current part to the first part, run the write loop from `progress`, then
set `progress` to `len(parts)-2` when more than two parts exist; finally
forward the original bytes unchanged downstream. -/
def sdWrite {σ : Type} (ops : ChunkSaverStorage σ) (st : SessionState σ)
    (p : List Nat) : WriteResult σ :=
  match st.envelope.values with
  | none => .errored 0 "no message headers found" st
  | some vals =>
    match lookupMeta vals "MimeParts" with
    | some (.mimeParts parts) =>
      if parts.length > 0 then
        match fillVars parts st.subject st.toField st.fromField with
        | none => .panicked
        | some (subj, toF, fromF) =>
          let offset := st.msgPos
          let buf0 := { st.chunkBuffer with current := parts.head? }
          match writeLoop ops p offset st.delivered (parts.drop st.progress)
              0 0 buf0 st.db st.msgPos st.written with
          | .panicked => .panicked
          | .flushErr e c b d m w =>
            .errored c e { st with
              subject := subj
              toField := toF
              fromField := fromF
              chunkBuffer := b
              db := d
              msgPos := m
              written := w }
          | .ok _ _ b d m w =>
            let prog := if parts.length > 2 then parts.length - 2
                        else st.progress
            .ok p.length { st with
              subject := subj
              toField := toF
              fromField := fromF
              chunkBuffer := b
              db := d
              msgPos := m
              written := w
              progress := prog
              downstream := st.downstream ++ p
              delivered := st.delivered + p.length }
      else
        .ok p.length { st with
          downstream := st.downstream ++ p
          delivered := st.delivered + p.length }
    | _ =>
      .ok p.length { st with
        downstream := st.downstream ++ p
        delivered := st.delivered + p.length }

/-- Result of `sd.Open`; `panicked` models `e.RcptTo[0]` on an empty
recipient list and the assignment `e.Values["messageID"] = mid` on a nil
map. -/
inductive OpenResult (σ : Type) where
  | ok (st : SessionState σ)
  | errored (msg : String) (st : SessionState σ)
  | panicked
  deriving DecidableEq, Repr

/-- Translation of `sd.Open` (processor.go lines 132-153): zero `written`
and `progress`, best-effort IP parse, call `OpenMessage`, store the
returned id under `messageID` in the envelope metadata and capture the
envelope. -/
def sdOpen {σ : Type} (ops : ChunkSaverStorage σ) (st : SessionState σ)
    (e : Envelope) : OpenResult σ :=
  let st0 := { st with written := 0, progress := 0 }
  let ip := if parseIPOk e.remoteIP then e.remoteIP else ""
  match e.rcptTo with
  | [] => .panicked
  | rcpt0 :: _ =>
    match ops.openMessage st.db e.mailFrom e.helo rcpt0 ip e.mailFrom e.tls with
    | .error err => .errored err st0
    | .ok (mid, db2) =>
      match e.values with
      | none => .panicked
      | some vals =>
        .ok { st0 with
          db := db2
          envelope := { e with
            values := some (mapSet vals "messageID" (.messageID mid)) } }

/-- Translation of `sd.Close` (processor.go lines 155-177): flush the
buffer, returning its error before the deferred `Reset` is registered;
on flush success the manifest reset runs on every exit path; call
`CloseMessage` only when a `uint64` message id is present, propagating
its error. -/
def sdClose {σ : Type} (ops : ChunkSaverStorage σ) (st : SessionState σ) :
    Except String Unit × SessionState σ :=
  match flushBuf ops st.chunkBuffer st.db with
  | .error e => (.error e, st)
  | .ok (buf1, db1) =>
    let st1 := { st with chunkBuffer := buf1, db := db1 }
    match st1.envelope.values.bind (fun vs => lookupMeta vs "messageID") with
    | some (.messageID mid) =>
      match ops.closeMessage db1 mid st1.written buf1.info st1.subject
          st1.envelope.queuedId st1.toField st1.fromField with
      | .error e =>
        (.error e, { st1 with chunkBuffer := { buf1 with info := [] } })
      | .ok db2 =>
        (.ok (), { st1 with
          db := db2
          chunkBuffer := { buf1 with info := [] } })
    | _ => (.ok (), { st1 with chunkBuffer := { buf1 with info := [] } })

/-- A sequence of `Write` calls; `none` when one of them errors or
panics. -/
def runWrites {σ : Type} (ops : ChunkSaverStorage σ) (st : SessionState σ) :
    List (List Nat) → Option (SessionState σ)
  | [] => some st
  | p :: rest =>
    match sdWrite ops st p with
    | .ok _ st2 => runWrites ops st2 rest
    | _ => none

/-- Concatenation of the manifest's chunk payloads in order (the stored
payload of a chunk is its content-addressed hash in this model). -/
def concatManifest (manifest : List ChunkInfo) : List Nat :=
  (manifest.map (fun c => c.hash)).flatten

/-- Sum of the chunk sizes recorded in a manifest. -/
def manifestSizes (manifest : List ChunkInfo) : Nat :=
  (manifest.map (fun c => c.size)).sum

deriving instance DecidableEq for Except

/-- Sum of a buffer's flushed manifest sizes plus its pending bytes:
every byte ever accepted by the buffer is accounted here. -/
def bufTotal (b : ChunkedBytesBufferMime) : Nat :=
  manifestSizes b.info + b.buf.length

/-- The `uint64` message id the `Close` path extracts from the envelope
metadata (`envelope.Values["messageID"].(uint64)` in the source). -/
def midOf {σ : Type} (st : SessionState σ) : Option Nat :=
  match st.envelope.values.bind (fun vs => lookupMeta vs "messageID") with
  | some (.messageID m) => some m
  | _ => none

/-- Entries of the in-memory chunk store holding a given content hash. -/
def entriesOf (x : List Nat) (db : ChunkSaverMemory) : List (List Nat × Nat) :=
  db.chunks.filter (fun c => c.1 = x)

/-- Whether a `Write` call returned the missing-context error ("no
message headers found", the only error `Write` raises on its own). -/
def isMissingContextErr {σ : Type} : WriteResult σ → Bool
  | .errored _ _ _ => true
  | _ => false

/-- Position advance of the last-part step on the non-panicking path:
when on the last part with `len(p)-1 > pos`, the remainder is consumed
(`pos` reaches `p.length`); otherwise nothing moves. -/
def lastPartBound (p : List Nat) (isLast : Bool) (pos2 m2 : Nat) : Nat × Nat :=
  if isLast ∧ (p.length : Int) - 1 > (pos2 : Int) then
    (p.length, uadd m2 (p.length - pos2))
  else (pos2, m2)

/-- Mirror of the write loop recording only whether every chunk cut it
triggers stays within the delivered input: at each triggered cut the
boundary's position relative to the call-entry stream position
(`usub target offset`) must not exceed `p.length`.  It advances
`pos`/`msgPos` exactly as the loop does on the non-panicking path. -/
def boundsOK (p : List Nat) (offset : Nat) :
    List MimePart → Nat → Nat → Bool
  | [], _, _ => true
  | part :: rest, pos, msgPos =>
    let s1 : Option (Nat × Nat) :=
      if part.startingPos > 0 ∧ part.startingPos > msgPos then
        if usub part.startingPos offset ≤ p.length then
          some (usub part.startingPos offset, part.startingPos)
        else none
      else some (pos, msgPos)
    match s1 with
    | none => false
    | some (pos1, msgPos1) =>
      let s2 : Option (Nat × Nat) :=
        if part.startingPosBody > 0 ∧ part.startingPosBody ≥ msgPos1 then
          if usub part.startingPosBody offset ≤ p.length then
            some (usub part.startingPosBody offset, part.startingPosBody)
          else none
        else some (pos1, msgPos1)
      match s2 with
      | none => false
      | some (pos2, msgPos2) =>
        match lastPartBound p rest.isEmpty pos2 msgPos2 with
        | (pos3, msgPos3) =>
          if pos3 ≥ p.length then true
          else boundsOK p offset rest pos3 msgPos3

/-- Alignment predicate of the boundary-alignment property: a chunk ends
at a part start, at a part body start, at the end of the message
(`total` bytes delivered), or was forced by the size cap. -/
def alignedChunkB (parts : List MimePart) (total cap : Nat)
    (c : ChunkInfo) : Bool :=
  (c.size = cap) || parts.any (fun pt => pt.startingPos = c.endPos) ||
    parts.any (fun pt => pt.startingPosBody = c.endPos) || (c.endPos = total)

/-- A single MIME part whose body starts at stream offset 3, used by the
concrete scenarios. -/
def scPart : MimePart := ⟨[], 0, 3⟩

/-- Fresh buffer with a 100-byte cap. -/
def scBuf : ChunkedBytesBufferMime := ⟨[], 100, [], none, 0⟩

/-- Envelope carrying the part list and an open message id 7. -/
def c1Env : Envelope :=
  ⟨"a@b", ["c@d"], "h", "1.2.3.4", false, "q1",
   some [("MimeParts", .mimeParts [scPart]), ("messageID", .messageID 7)]⟩

/-- Post-open session for the reconstruction scenario. -/
def c1St : SessionState ChunkSaverMemory :=
  ⟨c1Env, scBuf, 0, emptyMemory, 0, "", "", "", 0, [], 0⟩

/-- The four-byte input stream of the reconstruction scenario. -/
def c1Input : List Nat := [10, 20, 30, 40]

/-- Full run of the reconstruction scenario: one `Write` of the whole
stream, then `Close`. -/
def c1Run : Except String Unit × SessionState ChunkSaverMemory :=
  match runWrites memOps c1St [c1Input] with
  | some s => sdClose memOps s
  | none => (.error "run failed", c1St)

/-- Envelope for the boundary-alignment scenario (message id 9). -/
def c3Env : Envelope :=
  ⟨"a@b", ["c@d"], "h", "1.2.3.4", false, "q3",
   some [("MimeParts", .mimeParts [scPart]), ("messageID", .messageID 9)]⟩

/-- Post-open session for the boundary-alignment scenario. -/
def c3St : SessionState ChunkSaverMemory :=
  ⟨c3Env, scBuf, 0, emptyMemory, 0, "", "", "", 0, [], 0⟩

/-- The boundary-alignment scenario delivers eight bytes in two writes:
seven bytes, then one byte. -/
def c3P1 : List Nat := [10, 11, 12, 13, 14, 15, 16]

/-- Second write of the boundary-alignment scenario. -/
def c3P2 : List Nat := [17]

/-- Full run of the boundary-alignment scenario. -/
def c3Run : Except String Unit × SessionState ChunkSaverMemory :=
  match runWrites memOps c3St [c3P1, c3P2] with
  | some s => sdClose memOps s
  | none => (.error "run failed", c3St)

/-- The misaligned chunk the boundary-alignment scenario produces: four
body bytes ending at stream position 7 of an eight-byte message. -/
def c3BadChunk : ChunkInfo := ⟨[13, 14, 15, 16], 4, some scPart, 7⟩

/-- Session for the trailing-byte scenario (message id 5). -/
def c9St : SessionState ChunkSaverMemory :=
  ⟨⟨"a@b", ["c@d"], "h", "1.2.3.4", false, "q9",
    some [("MimeParts", .mimeParts [scPart]), ("messageID", .messageID 5)]⟩,
   scBuf, 0, emptyMemory, 0, "", "", "", 0, [], 0⟩

/-- Metadata map of the pass-through witness: no MIME-part list. -/
def c4Vals : List (String × MetaVal) := [("x", .other "y")]

/-- Session whose envelope metadata holds no MIME-part list. -/
def c4St : SessionState ChunkSaverMemory :=
  ⟨⟨"a@b", ["c@d"], "h", "1.2.3.4", false, "q4", some c4Vals⟩,
   scBuf, 0, emptyMemory, 0, "", "", "", 0, [], 0⟩

/-- Session whose envelope metadata map is initialized but empty. -/
def c5St : SessionState ChunkSaverMemory :=
  ⟨⟨"a@b", ["c@d"], "h", "ip", false, "q5", some []⟩,
   scBuf, 0, emptyMemory, 0, "", "", "", 0, [], 0⟩

/-- Session whose envelope metadata map is nil. -/
def c5NilSt : SessionState ChunkSaverMemory :=
  ⟨⟨"a@b", ["c@d"], "h", "ip", false, "q5n", none⟩,
   scBuf, 0, emptyMemory, 0, "", "", "", 0, [], 0⟩

/-- Session for the close-flow counterexample: one chunk already in the
manifest, pending bytes in the buffer, and an engine state (`1`) that
makes the next dedup call fail. -/
def c7St : SessionState Nat :=
  ⟨⟨"a@b", ["c@d"], "h", "1.2.3.4", false, "q7",
    some [("messageID", .messageID 1)]⟩,
   ⟨[5], 100, [⟨[9], 1, none, 1⟩], none, 2⟩, 2, 1, 2, "", "", "", 0, [], 2⟩

/-- Envelope passed to `Open` in the open-reset scenario. -/
def c8Env : Envelope :=
  ⟨"a@b", ["c@d"], "h", "1.2.3.4", true, "q8", some []⟩

/-- Session with stale per-message state (`msgPos` 5, captured headers)
from a previous message, about to be reopened. -/
def c8St : SessionState ChunkSaverMemory :=
  ⟨c8Env, scBuf, 5, emptyMemory, 44, "stale", "t@t", "f@f", 3, [], 0⟩

/-- The session `Open` actually produces in the open-reset scenario:
`written`/`progress` are zeroed and the id stored, but `msgPos` and the
captured headers keep their stale values. -/
def c8After : SessionState ChunkSaverMemory :=
  ⟨⟨"a@b", ["c@d"], "h", "1.2.3.4", true, "q8",
    some [("messageID", .messageID 1)]⟩,
   scBuf, 5, ⟨[], 2, []⟩, 0, "stale", "t@t", "f@f", 0, [], 0⟩

/-- The session the trailing-byte scenario's single `Write` produces:
only three of the four delivered bytes were consumed. -/
def c9After : SessionState ChunkSaverMemory :=
  { c9St with
    chunkBuffer :=
      ⟨[], 100, [⟨[10, 20, 30], 3, some scPart, 3⟩], some scPart, 3⟩
    msgPos := 3
    db := ⟨[([10, 20, 30], 1)], 1, []⟩
    written := 3
    downstream := [10, 20, 30, 40]
    delivered := 4 }

/-- Store resulting from a sequence of dedup calls on a fresh in-memory
engine: the payload sequence is the chunk contents flushed, in order,
within one message or across several. -/
def storeOf (fs : List (List Nat)) : ChunkSaverMemory :=
  fs.foldl dedupMem emptyMemory

/-- The chunk the size-accounting witness run flushes. -/
def c6Chunk : ChunkInfo := ⟨[10, 20, 30], 3, some scPart, 3⟩

/-- Session after the size-accounting witness run's single `Write`. -/
def c6St1 : SessionState ChunkSaverMemory :=
  { c1St with
    chunkBuffer := ⟨[], 100, [c6Chunk], some scPart, 3⟩
    msgPos := 3
    db := ⟨[([10, 20, 30], 1)], 1, []⟩
    written := 3
    downstream := [10, 20, 30, 40]
    delivered := 4 }

/-- The message record the size-accounting witness run closes. -/
def c6Cm : ClosedMessage := ⟨7, 3, [c6Chunk], "", "q1", "", ""⟩

/-- Session after the size-accounting witness run's `Close`. -/
def c6St2 : SessionState ChunkSaverMemory :=
  { c6St1 with
    chunkBuffer := ⟨[], 100, [], some scPart, 3⟩
    db := ⟨[([10, 20, 30], 1)], 1, [c6Cm]⟩ }

/-- C1 (code bug): delivering `[10, 20, 30, 40]` to a message whose only
part has its body starting at offset 3 and closing the message loses the
final byte: the closed manifest reconstructs `[10, 20, 30]`, not the
original stream.  The cause is the `len(p)-1 > pos` guard (processor.go
line 249), which skips the remainder when exactly one unconsumed byte is
left. -/
theorem c1_reconstruction_violated :
    c1Run.1 = Except.ok () ∧
    c1Run.2.db.closed.map (fun cm => concatManifest cm.manifest) =
      [[10, 20, 30]] ∧
    [10, 20, 30] ≠ c1Input := by
  decide

/-- C9 (code bug): a `Write` on the last known part with one unconsumed
byte remaining (`pos = 3`, `len(p) = 4`) consumes nothing further: the
call succeeds but `written` stays 3 and the buffer stays empty, although
the claim requires all remaining bytes to be buffered and counted. -/
theorem c9_trailing_byte_dropped :
    sdWrite memOps c9St [10, 20, 30, 40] = WriteResult.ok 4 c9After ∧
    c9After.written = 3 ∧
    c9After.chunkBuffer.buf = [] ∧
    c9After.msgPos = 3 := by
  decide

/-- C3 (code bug): the eight-byte two-write run produces a chunk of four
body bytes ending at stream position 7 — strictly inside the body span
(which starts at 3 and ends at 8), not at a part start, not at a body
start, not at the end of the message, and not of the cap size 100. -/
theorem c3_boundary_misaligned :
    c3Run.1 = Except.ok () ∧
    c3Run.2.delivered = 8 ∧
    c3Run.2.db.closed.map (fun cm => cm.manifest) =
      [[⟨[10, 11, 12], 3, some scPart, 3⟩, c3BadChunk]] ∧
    alignedChunkB [scPart] 8 100 c3BadChunk = false := by
  decide

/-- C5 (counterexample): `Write` on an envelope whose metadata map is
initialized but empty does not return the missing-context error; it is a
plain pass-through.  Only a nil metadata map triggers the error. -/
theorem c5_empty_map_no_error :
    isMissingContextErr (sdWrite memOps c5St [1, 2]) = false ∧
    sdWrite memOps c5St [1, 2] =
      WriteResult.ok 2 { c5St with downstream := [1, 2], delivered := 2 } := by
  decide

/-- C7 (counterexample): when the final flush fails, `Close` returns the
storage error with the manifest untouched — the deferred `Reset` is
registered only after the flush error's early return (processor.go lines
156-161), so the manifest is not cleared, contrary to the claim that it
is reset regardless of the flush outcome. -/
theorem c7_reset_skipped_on_flush_error :
    sdClose failSecondDedup c7St = (.error "storage: dedup failed", c7St) ∧
    c7St.chunkBuffer.info ≠ [] := by
  decide

/-- C8 (counterexample): a successful `Open` on a session with stale
state zeroes only `written` and `progress`: the running byte position
stays 5 and the captured subject stays "stale", contrary to the claim
that all per-message session state is reset. -/
theorem c8_open_keeps_stale_state :
    sdOpen memOps c8St c8Env = OpenResult.ok c8After ∧
    c8After.msgPos = 5 ∧
    c8After.msgPos ≠ 0 ∧
    c8After.subject = "stale" ∧
    c8After.written = 0 ∧
    c8After.progress = 0 := by
  decide

/-- C4: a `Write` on an envelope whose (initialized) metadata map holds
no MIME-part list, or an empty one, forwards the bytes unchanged, returns
no error, and leaves the chunk buffer, manifest, written total and
storage engine untouched: only the downstream sink (and the ghost
delivered counter) change. -/
theorem c4_passthrough {σ : Type} (ops : ChunkSaverStorage σ)
    (st : SessionState σ) (p : List Nat) (vals : List (String × MetaVal))
    (hv : st.envelope.values = some vals)
    (hnp : ∀ parts, lookupMeta vals "MimeParts" = some (.mimeParts parts) →
      parts = []) :
    sdWrite ops st p = WriteResult.ok p.length
      { st with downstream := st.downstream ++ p, delivered := st.delivered + p.length } := by
  unfold sdWrite
  rw [hv]
  dsimp only
  cases hm : lookupMeta vals "MimeParts" with
  | none => rfl
  | some v =>
    cases v with
    | mimeParts parts =>
      have hparts : parts = [] := hnp parts hm
      subst hparts
      rfl
    | messageID m => rfl
    | other s => rfl

/-- Witness for the pass-through theorem at a concrete session whose
metadata map holds no MIME-part list. -/
theorem c4_passthrough_witness :
    sdWrite memOps c4St [5] = WriteResult.ok 1
      { c4St with downstream := [5], delivered := 1 } := by
  have hl : lookupMeta c4Vals "MimeParts" = none := by decide
  exact c4_passthrough memOps c4St [5] c4Vals rfl
    (fun parts hcontra => by rw [hl] at hcontra; cases hcontra)

/-- C5 (amended): a `Write` on an envelope whose metadata map is nil
returns the missing-context error with count 0 and the session state
untouched (no bytes chunked). -/
theorem c5_nil_metadata_error {σ : Type} (ops : ChunkSaverStorage σ)
    (st : SessionState σ) (p : List Nat)
    (h : st.envelope.values = none) :
    sdWrite ops st p = WriteResult.errored 0 "no message headers found" st := by
  unfold sdWrite
  rw [h]

/-- Witness for the nil-metadata error theorem at a concrete session. -/
theorem c5_nil_metadata_error_witness :
    sdWrite memOps c5NilSt [1] =
      WriteResult.errored 0 "no message headers found" c5NilSt :=
  c5_nil_metadata_error memOps c5NilSt [1] rfl

/-- C8 (amended): a successful `Open` zeroes `written` and `progress`,
installs the engine state returned by `OpenMessage` and stores the
returned id under `messageID` in the envelope metadata; the running byte
position `msgPos` and the captured subject/to/from fields are left as
they were. -/
theorem c8_open_resets_written_progress {σ : Type} (ops : ChunkSaverStorage σ)
    (st : SessionState σ) (e : Envelope) (vals : List (String × MetaVal))
    (r0 : String) (rrest : List String) (mid : Nat) (db2 : σ)
    (hv : e.values = some vals) (hr : e.rcptTo = r0 :: rrest)
    (hopen : ops.openMessage st.db e.mailFrom e.helo r0
      (if parseIPOk e.remoteIP then e.remoteIP else "") e.mailFrom e.tls =
      .ok (mid, db2)) :
    sdOpen ops st e = OpenResult.ok
      { st with written := 0, progress := 0, db := db2, envelope := { e with values := some (mapSet vals "messageID" (.messageID mid)) } } := by
  unfold sdOpen
  rw [hr]
  dsimp only
  rw [hopen]
  dsimp only
  rw [hv]

/-- Witness for the open-reset theorem at the concrete stale session. -/
theorem c8_open_resets_witness :
    sdOpen memOps c8St c8Env = OpenResult.ok
      { c8St with written := 0, progress := 0, db := ⟨[], 2, []⟩, envelope := { c8Env with values := some [("messageID", MetaVal.messageID 1)] } } :=
  c8_open_resets_written_progress memOps c8St c8Env [] "c@d" [] 1 ⟨[], 2, []⟩
    rfl rfl rfl

/-- Unfolding of `sdClose` with the nested record updates flattened. -/
theorem sdClose_eq {σ : Type} (ops : ChunkSaverStorage σ)
    (st : SessionState σ) :
    sdClose ops st =
      match flushBuf ops st.chunkBuffer st.db with
      | .error e => (.error e, st)
      | .ok (b1, d1) =>
        match st.envelope.values.bind (fun vs => lookupMeta vs "messageID") with
        | some (.messageID mid) =>
          match ops.closeMessage d1 mid st.written b1.info st.subject
              st.envelope.queuedId st.toField st.fromField with
          | .error e =>
            (.error e, { st with chunkBuffer := { b1 with info := [] }, db := d1 })
          | .ok d2 =>
            (.ok (), { st with chunkBuffer := { b1 with info := [] }, db := d2 })
        | _ => (.ok (), { st with chunkBuffer := { b1 with info := [] }, db := d1 }) := by
  unfold sdClose
  rfl

/-- C7 (amended): on `Close`, a failing final flush returns the flush
error with the session (and in particular the manifest) untouched; when
the flush succeeds, the manifest is reset on every exit path, and
`CloseMessage` runs only when a `uint64` message id is present, its
error or success being returned and its engine state installed. -/
theorem c7_close_flow {σ : Type} (ops : ChunkSaverStorage σ)
    (st : SessionState σ) :
    (∀ e, flushBuf ops st.chunkBuffer st.db = .error e →
       sdClose ops st = (.error e, st)) ∧
    (∀ b1 d1, flushBuf ops st.chunkBuffer st.db = .ok (b1, d1) →
       (sdClose ops st).2.chunkBuffer.info = [] ∧
       (∀ mid e, st.envelope.values.bind (fun vs => lookupMeta vs "messageID") =
            some (.messageID mid) →
          ops.closeMessage d1 mid st.written b1.info st.subject
            st.envelope.queuedId st.toField st.fromField = .error e →
          sdClose ops st =
            (.error e, { st with chunkBuffer := { b1 with info := [] }, db := d1 })) ∧
       (∀ mid d2, st.envelope.values.bind (fun vs => lookupMeta vs "messageID") =
            some (.messageID mid) →
          ops.closeMessage d1 mid st.written b1.info st.subject
            st.envelope.queuedId st.toField st.fromField = .ok d2 →
          sdClose ops st =
            (.ok (), { st with chunkBuffer := { b1 with info := [] }, db := d2 })) ∧
       ((∀ v, st.envelope.values.bind (fun vs => lookupMeta vs "messageID") = some v →
            ∀ m, v ≠ .messageID m) →
          sdClose ops st =
            (.ok (), { st with chunkBuffer := { b1 with info := [] }, db := d1 })) ∧
       (st.envelope.values.bind (fun vs => lookupMeta vs "messageID") = none →
          sdClose ops st =
            (.ok (), { st with chunkBuffer := { b1 with info := [] }, db := d1 }))) := by
  constructor
  · intro e hf
    rw [sdClose_eq, hf]
  · intro b1 d1 hf
    refine ⟨?_, ?_, ?_, ?_, ?_⟩
    · rw [sdClose_eq, hf]
      dsimp only
      cases hb : st.envelope.values.bind (fun vs => lookupMeta vs "messageID") with
      | none => rfl
      | some v =>
        cases v with
        | mimeParts parts => rfl
        | messageID mid =>
          dsimp only
          cases hc : ops.closeMessage d1 mid st.written b1.info st.subject
              st.envelope.queuedId st.toField st.fromField with
          | error e2 => rfl
          | ok d2 => rfl
        | other s => rfl
    · intro mid e hb hc
      rw [sdClose_eq, hf]
      dsimp only
      rw [hb]
      dsimp only
      rw [hc]
    · intro mid d2 hb hc
      rw [sdClose_eq, hf]
      dsimp only
      rw [hb]
      dsimp only
      rw [hc]
    · intro hother
      rw [sdClose_eq, hf]
      dsimp only
      cases hb : st.envelope.values.bind (fun vs => lookupMeta vs "messageID") with
      | none => rfl
      | some v =>
        cases v with
        | mimeParts parts => rfl
        | messageID mid => exact absurd rfl (hother _ hb mid)
        | other s => rfl
    · intro hb
      rw [sdClose_eq, hf]
      dsimp only
      rw [hb]

/-- Witness for the close-flow theorem: a concrete session with an empty
buffer and a message id in the metadata, run through the success path. -/
theorem c7_close_flow_witness :
    sdClose memOps c1St =
      (.ok (), { c1St with chunkBuffer := { scBuf with info := [] }, db := ⟨[], 1, [⟨7, 0, [], "", "q1", "", ""⟩]⟩ }) := by
  have h := (c7_close_flow memOps c1St).2 scBuf emptyMemory rfl
  exact h.2.2.1 7 ⟨[], 1, [⟨7, 0, [], "", "q1", "", ""⟩]⟩ rfl rfl

/-- Appending fresh chunk entries commutes with selecting a content's
entries. -/
theorem entriesOf_append (x : List Nat) (db : ChunkSaverMemory)
    (l : List (List Nat × Nat)) :
    entriesOf x { db with chunks := db.chunks ++ l } =
      entriesOf x db ++ l.filter (fun c => c.1 = x) := by
  simp [entriesOf, List.filter_append]

/-- Incrementing the reference counts of one content commutes with
selecting a content's entries, because the increment preserves the
stored hash. -/
theorem entriesOf_mapIncr (x y : List Nat) (db : ChunkSaverMemory) :
    entriesOf x { db with chunks := db.chunks.map (fun c => if c.1 = y then (c.1, c.2 + 1) else c) } =
      (entriesOf x db).map (fun c => if c.1 = y then (c.1, c.2 + 1) else c) := by
  simp only [entriesOf]
  rw [List.filter_map]
  congr 1
  apply List.filter_congr
  intro c _
  by_cases hcy : c.1 = y <;> simp [hcy]

/-- Closed form of the store built by a sequence of dedup calls starting
from the empty store: each flushed content is stored exactly once and
carries the number of times it was flushed; unflushed contents are
absent. -/
theorem entriesOf_storeOf (fs : List (List Nat)) :
    ∀ x, entriesOf x (storeOf fs) =
      if fs.count x = 0 then [] else [(x, fs.count x)] := by
  induction fs using List.reverseRecOn with
  | nil => intro x; simp [storeOf, emptyMemory, entriesOf]
  | append_singleton fs y ih =>
    intro x
    have hstep : storeOf (fs ++ [y]) = dedupMem (storeOf fs) y := by
      simp [storeOf, List.foldl_concat]
    rw [hstep]
    have hany : ((storeOf fs).chunks.any (fun c => c.1 = y) = true) ↔
        fs.count y ≠ 0 := by
      rw [List.any_eq_true]
      constructor
      · rintro ⟨c, hc, hcy⟩ h0
        have hmem : c ∈ entriesOf y (storeOf fs) :=
          List.mem_filter.2 ⟨hc, hcy⟩
        rw [ih y] at hmem
        simp [h0] at hmem
      · intro h0
        have hey : entriesOf y (storeOf fs) = [(y, fs.count y)] := by
          rw [ih y]; simp [h0]
        have hmem : (y, fs.count y) ∈ entriesOf y (storeOf fs) := by
          rw [hey]; exact List.mem_singleton_self _
        obtain ⟨hc, hcy⟩ := List.mem_filter.1 hmem
        exact ⟨_, hc, hcy⟩
    unfold dedupMem
    by_cases hy : (storeOf fs).chunks.any (fun c => c.1 = y)
    · rw [if_pos hy, entriesOf_mapIncr, ih x]
      have hcy : fs.count y ≠ 0 := hany.1 hy
      by_cases hxy : x = y
      · subst hxy
        rw [if_neg hcy]
        simp [List.count_append, hcy]
      · have hcnt : (fs ++ [y]).count x = fs.count x := by
          simp [List.count_append, List.count_singleton', hxy]
        rw [hcnt]
        by_cases hcx : fs.count x = 0
        · simp [hcx]
        · simp [hcx, hxy]
    · rw [if_neg hy, entriesOf_append, ih x]
      have hcy : fs.count y = 0 := by
        by_contra h0
        exact hy (hany.2 h0)
      by_cases hxy : x = y
      · subst hxy
        simp [hcy, List.count_append]
      · have hcnt : (fs ++ [y]).count x = fs.count x := by
          simp [List.count_append, List.count_singleton', hxy]
        rw [hcnt]
        simp [hxy]
        exact fun h => hxy h.symm

/-- C2: for any sequence of flushes into a fresh store, a content that
was flushed at least once (in particular any content flushed twice,
within one message or across messages) is held by exactly one stored
entry whose reference count equals the number of flushes of that
content — the bytes are persisted at most once per distinct hash. -/
theorem c2_dedup_refcount (fs : List (List Nat)) (x : List Nat)
    (h : 0 < fs.count x) :
    entriesOf x (storeOf fs) = [(x, fs.count x)] ∧
    (entriesOf x (storeOf fs)).length = 1 := by
  have he := entriesOf_storeOf fs x
  rw [if_neg (Nat.pos_iff_ne_zero.mp h)] at he
  exact ⟨he, by rw [he]; rfl⟩

/-- Witness for the dedup theorem: the content `[7, 8]` flushed twice
among three flushes ends up stored once with reference count 2. -/
theorem c2_dedup_refcount_witness :
    0 < ([[7, 8], [9], [7, 8]] : List (List Nat)).count [7, 8] ∧
    entriesOf [7, 8] (storeOf [[7, 8], [9], [7, 8]]) = [([7, 8], 2)] ∧
    (entriesOf [7, 8] (storeOf [[7, 8], [9], [7, 8]])).length = 1 :=
  ⟨by decide, c2_dedup_refcount [[7, 8], [9], [7, 8]] [7, 8] (by decide)⟩

/-- Appending one descriptor adds its size to the manifest total. -/
theorem manifestSizes_append (l : List ChunkInfo) (c : ChunkInfo) :
    manifestSizes (l ++ [c]) = manifestSizes l + c.size := by
  simp [manifestSizes]

/-- The dedup operation never touches the closed-message records. -/
theorem dedupMem_closed (db : ChunkSaverMemory) (x : List Nat) :
    (dedupMem db x).closed = db.closed := by
  unfold dedupMem
  split <;> rfl

/-- A flush through the in-memory engine always succeeds, empties the
buffer, preserves its cap, current part and byte accounting, and leaves
the closed records alone. -/
theorem flushBuf_mem_spec (b : ChunkedBytesBufferMime) (db : ChunkSaverMemory) :
    ∃ b2 db2, flushBuf memOps b db = .ok (b2, db2) ∧ b2.buf = [] ∧
      b2.capSize = b.capSize ∧ b2.current = b.current ∧
      bufTotal b2 = bufTotal b ∧ db2.closed = db.closed := by
  unfold flushBuf
  by_cases h : b.buf = []
  · rw [if_pos h]
    exact ⟨b, db, rfl, h, rfl, rfl, rfl, rfl⟩
  · rw [if_neg h]
    refine ⟨_, _, rfl, rfl, rfl, rfl, ?_, ?_⟩
    · simp [bufTotal, manifestSizes_append]
    · exact dedupMem_closed db b.buf

/-- Filling through the in-memory engine consumes every byte, reports no
error, preserves cap/current, adds the byte count to the buffer's
accounting and leaves the closed records alone. -/
theorem bufFill_mem_spec (q : List Nat) :
    ∀ (b : ChunkedBytesBufferMime) (db : ChunkSaverMemory) (nextPos : Nat),
    ∃ b2 db2, bufFill memOps b db q nextPos = (q.length, b2, db2, none) ∧
      b2.capSize = b.capSize ∧ b2.current = b.current ∧
      bufTotal b2 = bufTotal b + q.length ∧ db2.closed = db.closed := by
  induction q with
  | nil =>
    intro b db n
    exact ⟨b, db, rfl, rfl, rfl, rfl, rfl⟩
  | cons x rest ih =>
    intro b db n
    have hstep : bufTotal { b with buf := b.buf ++ [x], streamEnd := n + 1 } =
        bufTotal b + 1 := by
      simp [bufTotal]
      omega
    by_cases hcap :
        ({ b with buf := b.buf ++ [x], streamEnd := n + 1 } :
          ChunkedBytesBufferMime).buf.length ≥
        ({ b with buf := b.buf ++ [x], streamEnd := n + 1 } :
          ChunkedBytesBufferMime).capSize
    · obtain ⟨b3, db3, hfl, hfb3, hfcap, hfcur, hftot, hfcl⟩ :=
        flushBuf_mem_spec { b with buf := b.buf ++ [x], streamEnd := n + 1 } db
      obtain ⟨b4, db4, hrec, hc4, hcur4, ht4, hcl4⟩ := ih b3 db3 (n + 1)
      refine ⟨b4, db4, ?_, ?_, ?_, ?_, ?_⟩
      · simp only [bufFill]
        rw [if_pos hcap, hfl]
        dsimp only
        rw [hrec]
        rfl
      · exact hc4.trans hfcap
      · exact hcur4.trans hfcur
      · rw [ht4, hftot, hstep]
        simp only [List.length_cons]
        omega
      · exact hcl4.trans hfcl
    · obtain ⟨b4, db4, hrec, hc4, hcur4, ht4, hcl4⟩ :=
        ih { b with buf := b.buf ++ [x], streamEnd := n + 1 } db (n + 1)
      refine ⟨b4, db4, ?_, ?_, ?_, ?_, ?_⟩
      · simp only [bufFill]
        rw [if_neg hcap]
        rw [hrec]
        rfl
      · exact hc4
      · exact hcur4
      · rw [ht4, hstep]
        simp only [List.length_cons]
        omega
      · exact hcl4

/-- A chunk cut panics exactly when the slice is out of range. -/
theorem cutAt_panic {σ : Type} (ops : ChunkSaverStorage σ) (p : List Nat)
    (offset delivered pos : Nat) (buf : ChunkedBytesBufferMime) (db : σ)
    (msgPos written target : Nat) (part : MimePart)
    (hs : goSlice p pos (usub target offset) = none) :
    cutAt ops p offset delivered pos buf db msgPos written target part =
      .panicked := by
  unfold cutAt
  rw [hs]

/-- A chunk cut through the in-memory engine on an in-range slice
succeeds: the slice is consumed, written, flushed into the manifest, and
the current part switched, with the byte accounting advanced by the
slice length. -/
theorem cutAt_mem_spec (p : List Nat) (offset delivered pos : Nat)
    (buf : ChunkedBytesBufferMime) (db : ChunkSaverMemory)
    (msgPos written target : Nat) (part : MimePart) (slice : List Nat)
    (hs : goSlice p pos (usub target offset) = some slice) :
    ∃ b2 db2,
      cutAt memOps p offset delivered pos buf db msgPos written target part =
        .ok (pos + slice.length) slice.length b2 db2 target
          (written + slice.length) ∧
      b2.buf = [] ∧ b2.capSize = buf.capSize ∧ b2.current = some part ∧
      bufTotal b2 = bufTotal buf + slice.length ∧ db2.closed = db.closed := by
  obtain ⟨b1, d1, hfill, hc1, hcur1, ht1, hcl1⟩ :=
    bufFill_mem_spec slice buf db (delivered + pos)
  obtain ⟨b2, d2, hfl, hb2, hc2, hcur2, ht2, hcl2⟩ := flushBuf_mem_spec b1 d1
  refine ⟨{ b2 with current := some part }, d2, ?_, ?_, ?_, ?_, ?_, ?_⟩
  · unfold cutAt
    rw [hs]
    dsimp only
    rw [hfill]
    dsimp only
    rw [hfl]
  · exact hb2
  · exact hc2.trans hc1
  · rfl
  · show bufTotal b2 = bufTotal buf + slice.length
    rw [ht2, ht1]
  · exact hcl2.trans hcl1

/-- The write loop through the in-memory engine preserves the byte
accounting: on a successful pass the growth of `written` equals the
growth of the buffer's accounted bytes (manifest sizes plus pending
bytes), and the closed-message records are untouched. -/
theorem writeLoop_mem_inv (p : List Nat) (offset delivered : Nat) :
    ∀ (rest : List MimePart) (pos count : Nat) (buf : ChunkedBytesBufferMime)
      (db : ChunkSaverMemory) (msgPos written : Nat),
      match writeLoop memOps p offset delivered rest pos count buf db msgPos
          written with
      | .ok _ _ b4 d4 _ w4 =>
          w4 + bufTotal buf = written + bufTotal b4 ∧ d4.closed = db.closed
      | .flushErr _ _ _ _ _ _ => True
      | .panicked => True := by
  intro rest
  induction rest with
  | nil => intro pos count buf db msgPos written; exact ⟨rfl, rfl⟩
  | cons part rest ih =>
    intro pos count buf db msgPos written
    have hcombine : ∀ (pos3 count3 : Nat) (b3 : ChunkedBytesBufferMime)
        (d3 : ChunkSaverMemory) (m3 w3 : Nat),
        w3 + bufTotal buf = written + bufTotal b3 → d3.closed = db.closed →
        match writeLoop memOps p offset delivered rest pos3 count3 b3 d3 m3
            w3 with
        | .ok _ _ b4 d4 _ w4 =>
            w4 + bufTotal buf = written + bufTotal b4 ∧ d4.closed = db.closed
        | .flushErr _ _ _ _ _ _ => True
        | .panicked => True := by
      intro pos3 count3 b3 d3 m3 w3 hw3 hcl3
      have hrec := ih pos3 count3 b3 d3 m3 w3
      cases hw : writeLoop memOps p offset delivered rest pos3 count3 b3 d3
          m3 w3 with
      | ok a c b4 d4 m4 w4 =>
        rw [hw] at hrec
        obtain ⟨hr1, hr2⟩ := hrec
        exact ⟨by omega, hr2.trans hcl3⟩
      | flushErr e c b4 d4 m4 w4 => trivial
      | panicked => trivial
    have hfinish : ∀ (pos2 count2 : Nat) (b2 : ChunkedBytesBufferMime)
        (d2 : ChunkSaverMemory) (m2 w2 : Nat),
        w2 + bufTotal buf = written + bufTotal b2 → d2.closed = db.closed →
        match
          (match lastPartWrite memOps p delivered rest.isEmpty pos2 count2 b2
              d2 m2 w2 with
           | (pos3, count3, b3, d3, m3, w3) =>
             if pos3 ≥ p.length then LoopOut.ok pos3 count3 b3 d3 m3 w3
             else writeLoop memOps p offset delivered rest pos3 count3 b3 d3
               m3 w3) with
        | .ok _ _ b4 d4 _ w4 =>
            w4 + bufTotal buf = written + bufTotal b4 ∧ d4.closed = db.closed
        | .flushErr _ _ _ _ _ _ => True
        | .panicked => True := by
      intro pos2 count2 b2 d2 m2 w2 hw2 hcl2
      unfold lastPartWrite
      by_cases h3 : (rest.isEmpty = true) ∧ (p.length : Int) - 1 > (pos2 : Int)
      · rw [if_pos h3]
        obtain ⟨b3, d3, hfill, hc3, hcur3, ht3, hcl3⟩ :=
          bufFill_mem_spec (p.drop pos2) b2 d2 (delivered + pos2)
        rw [hfill]
        dsimp only
        by_cases h4 : pos2 + (p.drop pos2).length ≥ p.length
        · rw [if_pos h4]
          exact ⟨by omega, hcl3.trans hcl2⟩
        · rw [if_neg h4]
          exact hcombine _ _ _ _ _ _ (by omega) (hcl3.trans hcl2)
      · rw [if_neg h3]
        dsimp only
        by_cases h4 : pos2 ≥ p.length
        · rw [if_pos h4]
          exact ⟨hw2, hcl2⟩
        · rw [if_neg h4]
          exact hcombine _ _ _ _ _ _ hw2 hcl2
    simp only [writeLoop]
    by_cases h1 : part.startingPos > 0 ∧ part.startingPos > msgPos
    · rw [if_pos h1]
      cases hg1 : goSlice p pos (usub part.startingPos offset) with
      | none =>
        rw [cutAt_panic memOps p offset delivered pos buf db msgPos written
          part.startingPos part hg1]
        trivial
      | some slice =>
        obtain ⟨b1, d1, hcut, hb1, hc1, hcur1, ht1, hcl1⟩ :=
          cutAt_mem_spec p offset delivered pos buf db msgPos written
            part.startingPos part slice hg1
        rw [hcut]
        dsimp only [loopSeq]
        by_cases h2 : part.startingPosBody > 0 ∧
            part.startingPosBody ≥ part.startingPos
        · rw [if_pos h2]
          cases hg2 : goSlice p (pos + slice.length)
              (usub part.startingPosBody offset) with
          | none =>
            rw [cutAt_panic memOps p offset delivered (pos + slice.length) b1
              d1 part.startingPos (written + slice.length) part.startingPosBody
              part hg2]
            trivial
          | some slice2 =>
            obtain ⟨b2, d2, hcut2, hb2, hc2, hcur2, ht2, hcl2⟩ :=
              cutAt_mem_spec p offset delivered (pos + slice.length) b1 d1
                part.startingPos (written + slice.length) part.startingPosBody
                part slice2 hg2
            rw [hcut2]
            dsimp only [loopSeq]
            exact hfinish _ _ _ _ _ _ (by omega) (hcl2.trans hcl1)
        · rw [if_neg h2]
          dsimp only [loopSeq]
          exact hfinish _ _ _ _ _ _ (by omega) hcl1
    · rw [if_neg h1]
      dsimp only [loopSeq]
      by_cases h2 : part.startingPosBody > 0 ∧ part.startingPosBody ≥ msgPos
      · rw [if_pos h2]
        cases hg2 : goSlice p pos (usub part.startingPosBody offset) with
        | none =>
          rw [cutAt_panic memOps p offset delivered pos buf db msgPos written
            part.startingPosBody part hg2]
          trivial
        | some slice2 =>
          obtain ⟨b2, d2, hcut2, hb2, hc2, hcur2, ht2, hcl2⟩ :=
            cutAt_mem_spec p offset delivered pos buf db msgPos written
              part.startingPosBody part slice2 hg2
          rw [hcut2]
          dsimp only [loopSeq]
          exact hfinish _ _ _ _ _ _ (by omega) hcl2
      · rw [if_neg h2]
        dsimp only [loopSeq]
        exact hfinish _ _ _ _ _ _ rfl rfl

/-- A successful `Write` through the in-memory engine grows `written` by
exactly the bytes newly accounted in the buffer, and never touches the
closed-message records. -/
theorem sdWrite_mem_inv (st : SessionState ChunkSaverMemory) (p : List Nat)
    (c : Nat) (st2 : SessionState ChunkSaverMemory)
    (h : sdWrite memOps st p = .ok c st2) :
    st2.written + bufTotal st.chunkBuffer =
      st.written + bufTotal st2.chunkBuffer ∧
    st2.db.closed = st.db.closed := by
  unfold sdWrite at h
  cases hv : st.envelope.values with
  | none => rw [hv] at h; simp at h
  | some vals =>
    rw [hv] at h
    dsimp only at h
    cases hm : lookupMeta vals "MimeParts" with
    | none =>
      rw [hm] at h
      dsimp only at h
      obtain ⟨h1, h2⟩ := WriteResult.ok.inj h
      subst h2
      exact ⟨rfl, rfl⟩
    | some v =>
      cases v with
      | mimeParts parts =>
        rw [hm] at h
        dsimp only at h
        by_cases hlen : parts.length > 0
        · rw [if_pos hlen] at h
          cases hf : fillVars parts st.subject st.toField st.fromField with
          | none => rw [hf] at h; simp at h
          | some tri =>
            obtain ⟨subj, toF, fromF⟩ := tri
            rw [hf] at h
            dsimp only at h
            have hinv := writeLoop_mem_inv p st.msgPos st.delivered
              (parts.drop st.progress) 0 0
              { st.chunkBuffer with current := parts.head? } st.db st.msgPos
              st.written
            cases hw : writeLoop memOps p st.msgPos st.delivered
                (parts.drop st.progress) 0 0
                { st.chunkBuffer with current := parts.head? } st.db st.msgPos
                st.written with
            | panicked => rw [hw] at h; simp at h
            | flushErr e cnt b d m w => rw [hw] at h; simp at h
            | ok a cnt b d m w =>
              rw [hw] at h
              rw [hw] at hinv
              obtain ⟨hi1, hi2⟩ := hinv
              obtain ⟨h1, h2⟩ := WriteResult.ok.inj h
              subst h2
              refine ⟨?_, hi2⟩
              show w + bufTotal st.chunkBuffer = st.written + bufTotal b
              have hb0 : bufTotal { st.chunkBuffer with current := parts.head? } =
                  bufTotal st.chunkBuffer := rfl
              omega
        · rw [if_neg hlen] at h
          obtain ⟨h1, h2⟩ := WriteResult.ok.inj h
          subst h2
          exact ⟨rfl, rfl⟩
      | messageID m =>
        rw [hm] at h
        dsimp only at h
        obtain ⟨h1, h2⟩ := WriteResult.ok.inj h
        subst h2
        exact ⟨rfl, rfl⟩
      | other s =>
        rw [hm] at h
        dsimp only at h
        obtain ⟨h1, h2⟩ := WriteResult.ok.inj h
        subst h2
        exact ⟨rfl, rfl⟩

/-- A successful run of `Write` calls through the in-memory engine grows
`written` by exactly the newly accounted buffer bytes and leaves the
closed-message records alone. -/
theorem runWrites_mem_inv :
    ∀ (script : List (List Nat)) (st st2 : SessionState ChunkSaverMemory),
    runWrites memOps st script = some st2 →
    st2.written + bufTotal st.chunkBuffer =
      st.written + bufTotal st2.chunkBuffer ∧
    st2.db.closed = st.db.closed := by
  intro script
  induction script with
  | nil =>
    intro st st2 h
    simp only [runWrites] at h
    obtain rfl := Option.some.inj h
    exact ⟨rfl, rfl⟩
  | cons q qs ih =>
    intro st st2 h
    simp only [runWrites] at h
    cases hw : sdWrite memOps st q with
    | ok c st1 =>
      rw [hw] at h
      obtain ⟨h1, h2⟩ := sdWrite_mem_inv st q c st1 hw
      obtain ⟨h3, h4⟩ := ih st1 st2 h
      exact ⟨by omega, h4.trans h2⟩
    | errored c e s => rw [hw] at h; simp at h
    | panicked => rw [hw] at h; simp at h

/-- C6: for a message processed from a clean session (nothing written,
empty buffer, empty manifest) whose `Close` succeeds, the total-bytes
value recorded by `CloseMessage` equals the sum of the chunk sizes in
the manifest it records. -/
theorem c6_size_accounting (script : List (List Nat))
    (st0 st1 st2 : SessionState ChunkSaverMemory) (cm : ClosedMessage)
    (h0w : st0.written = 0) (h0b : st0.chunkBuffer.buf = [])
    (h0i : st0.chunkBuffer.info = [])
    (hrun : runWrites memOps st0 script = some st1)
    (hclose : sdClose memOps st1 = (.ok (), st2))
    (hcm : st2.db.closed = st1.db.closed ++ [cm]) :
    cm.totalBytes = manifestSizes cm.manifest := by
  have h0t : bufTotal st0.chunkBuffer = 0 := by
    simp [bufTotal, h0b, h0i, manifestSizes]
  obtain ⟨hr1, hr2⟩ := runWrites_mem_inv script st0 st1 hrun
  have hw1 : st1.written = bufTotal st1.chunkBuffer := by omega
  rw [sdClose_eq] at hclose
  obtain ⟨b1, d1, hfl, hb1, hc1, hcur1, ht1, hcl1⟩ :=
    flushBuf_mem_spec st1.chunkBuffer st1.db
  rw [hfl] at hclose
  dsimp only at hclose
  cases hb : st1.envelope.values.bind (fun vs => lookupMeta vs "messageID") with
  | none =>
    rw [hb] at hclose
    dsimp only at hclose
    have hst2 := congrArg Prod.snd hclose
    dsimp only at hst2
    rw [← hst2] at hcm
    dsimp only at hcm
    rw [hcl1] at hcm
    have := congrArg List.length hcm
    simp at this
  | some v =>
    cases v with
    | mimeParts parts =>
      rw [hb] at hclose
      dsimp only at hclose
      have hst2 := congrArg Prod.snd hclose
      dsimp only at hst2
      rw [← hst2] at hcm
      dsimp only at hcm
      rw [hcl1] at hcm
      have := congrArg List.length hcm
      simp at this
    | messageID mid =>
      rw [hb] at hclose
      dsimp only [memOps] at hclose
      have hst2 := congrArg Prod.snd hclose
      dsimp only at hst2
      rw [← hst2] at hcm
      dsimp only at hcm
      rw [hcl1] at hcm
      have hcmeq : (⟨mid, st1.written, b1.info, st1.subject,
          st1.envelope.queuedId, st1.toField, st1.fromField⟩ : ClosedMessage) =
          cm := by
        have hs := List.append_cancel_left hcm
        exact (List.cons.inj hs).1
      rw [← hcmeq]
      dsimp only
      have hbt : bufTotal b1 = manifestSizes b1.info := by
        simp [bufTotal, hb1]
      omega
    | other s =>
      rw [hb] at hclose
      dsimp only at hclose
      have hst2 := congrArg Prod.snd hclose
      dsimp only at hst2
      rw [← hst2] at hcm
      dsimp only at hcm
      rw [hcl1] at hcm
      have := congrArg List.length hcm
      simp at this

/-- Witness for the size-accounting theorem: the four-byte run records a
closed message whose total (3) equals the single manifest chunk's size. -/
theorem c6_size_accounting_witness :
    runWrites memOps c1St [[10, 20, 30, 40]] = some c6St1 ∧
    sdClose memOps c6St1 = (.ok (), c6St2) ∧
    c6St2.db.closed = c6St1.db.closed ++ [c6Cm] ∧
    c6Cm.totalBytes = manifestSizes c6Cm.manifest :=
  ⟨by decide, by decide, by decide,
    c6_size_accounting [[10, 20, 30, 40]] c1St c6St1 c6St2 c6Cm rfl rfl rfl
      (by decide) (by decide) (by decide)⟩

/-- Go unsigned subtraction coincides with truncated subtraction when no
underflow occurs and the minuend is a machine `uint`. -/
theorem usub_eq (a b : Nat) (hb : b ≤ a) (ha : a < UintMod) :
    usub a b = a - b := by
  have h64 : UintMod = 18446744073709551616 := by norm_num [UintMod]
  unfold usub
  rw [h64] at ha ⊢
  omega

/-- An in-range Go slice expression yields the selected bytes, of length
`hi - lo`. -/
theorem goSlice_some (p : List Nat) (lo hi : Nat) (h1 : lo ≤ hi)
    (h2 : hi ≤ p.length) :
    ∃ slice, goSlice p lo hi = some slice ∧ slice.length = hi - lo := by
  refine ⟨(p.take hi).drop lo, ?_, ?_⟩
  · unfold goSlice
    rw [if_pos ⟨h1, h2⟩]
  · simp
    omega

/-- An out-of-range Go slice expression panics. -/
theorem goSlice_none (p : List Nat) (lo hi : Nat)
    (h : ¬(lo ≤ hi ∧ hi ≤ p.length)) : goSlice p lo hi = none := by
  unfold goSlice
  rw [if_neg h]


/-- The write loop through the in-memory engine panics exactly when some
cut it triggers has its boundary (taken relative to the call-entry
stream position) beyond the delivered input, as recorded by `boundsOK`.
The hypotheses are the loop-entry invariants: machine-sized part
offsets, an entry position at or past the call-entry offset, and `pos`
tracking `msgPos - offset` within the input. -/
theorem writeLoop_mem_panic_iff (p : List Nat) (offset delivered : Nat) :
    ∀ (rest : List MimePart) (pos count : Nat) (buf : ChunkedBytesBufferMime)
      (db : ChunkSaverMemory) (msgPos written : Nat),
      (∀ pt ∈ rest, pt.startingPos < UintMod ∧ pt.startingPosBody < UintMod) →
      offset ≤ msgPos → pos = msgPos - offset → pos ≤ p.length →
      ((writeLoop memOps p offset delivered rest pos count buf db msgPos
          written = .panicked) ↔
        boundsOK p offset rest pos msgPos = false) := by
  intro rest
  induction rest with
  | nil =>
    intro pos count buf db msgPos written hbnd hom hpos hple
    simp [writeLoop, boundsOK]
  | cons part rest ih =>
    intro pos count buf db msgPos written hbnd hom hpos hple
    have hSP : part.startingPos < UintMod :=
      (hbnd part (List.mem_cons_self part rest)).1
    have hSPB : part.startingPosBody < UintMod :=
      (hbnd part (List.mem_cons_self part rest)).2
    have hbnd2 : ∀ pt ∈ rest,
        pt.startingPos < UintMod ∧ pt.startingPosBody < UintMod :=
      fun pt hpt => hbnd pt (List.mem_cons_of_mem part hpt)
    have hstage3 : ∀ (pos2 count2 : Nat) (b2 : ChunkedBytesBufferMime)
        (d2 : ChunkSaverMemory) (m2 w2 : Nat),
        offset ≤ m2 → pos2 = m2 - offset → pos2 ≤ p.length →
        (((if (lastPartWrite memOps p delivered rest.isEmpty pos2 count2 b2 d2 m2 w2).1 ≥ p.length then
             LoopOut.ok (lastPartWrite memOps p delivered rest.isEmpty pos2 count2 b2 d2 m2 w2).1 (lastPartWrite memOps p delivered rest.isEmpty pos2 count2 b2 d2 m2 w2).2.1 (lastPartWrite memOps p delivered rest.isEmpty pos2 count2 b2 d2 m2 w2).2.2.1 (lastPartWrite memOps p delivered rest.isEmpty pos2 count2 b2 d2 m2 w2).2.2.2.1 (lastPartWrite memOps p delivered rest.isEmpty pos2 count2 b2 d2 m2 w2).2.2.2.2.1 (lastPartWrite memOps p delivered rest.isEmpty pos2 count2 b2 d2 m2 w2).2.2.2.2.2
           else
             writeLoop memOps p offset delivered rest (lastPartWrite memOps p delivered rest.isEmpty pos2 count2 b2 d2 m2 w2).1 (lastPartWrite memOps p delivered rest.isEmpty pos2 count2 b2 d2 m2 w2).2.1 (lastPartWrite memOps p delivered rest.isEmpty pos2 count2 b2 d2 m2 w2).2.2.1 (lastPartWrite memOps p delivered rest.isEmpty pos2 count2 b2 d2 m2 w2).2.2.2.1 (lastPartWrite memOps p delivered rest.isEmpty pos2 count2 b2 d2 m2 w2).2.2.2.2.1 (lastPartWrite memOps p delivered rest.isEmpty pos2 count2 b2 d2 m2 w2).2.2.2.2.2) =
            LoopOut.panicked) ↔
          ((if (lastPartBound p rest.isEmpty pos2 m2).1 ≥ p.length then true
            else boundsOK p offset rest (lastPartBound p rest.isEmpty pos2 m2).1 (lastPartBound p rest.isEmpty pos2 m2).2) = false)) := by
      intro pos2 count2 b2 d2 m2 w2 hom2 hpos2 hple2
      unfold lastPartWrite lastPartBound
      by_cases h3 : (rest.isEmpty = true) ∧ (p.length : Int) - 1 > (pos2 : Int)
      · rw [if_pos h3, if_pos h3]
        obtain ⟨b3, d3, hfill, hc3, hcur3, ht3, hcl3⟩ :=
          bufFill_mem_spec (p.drop pos2) b2 d2 (delivered + pos2)
        rw [hfill]
        dsimp only
        have hdrop : (p.drop pos2).length = p.length - pos2 := by simp
        rw [hdrop]
        have hsum : pos2 + (p.length - pos2) = p.length := by omega
        rw [hsum]
        simp
      · rw [if_neg h3, if_neg h3]
        dsimp only
        by_cases h4 : pos2 ≥ p.length
        · rw [if_pos h4, if_pos h4]
          simp
        · rw [if_neg h4, if_neg h4]
          exact ih pos2 count2 b2 d2 m2 w2 hbnd2 hom2 hpos2 hple2
    have hstage2 : ∀ (pos1 count1 : Nat) (b1 : ChunkedBytesBufferMime)
        (d1 : ChunkSaverMemory) (m1 w1 : Nat),
        offset ≤ m1 → pos1 = m1 - offset → pos1 ≤ p.length →
        ((loopSeq
            (if part.startingPosBody > 0 ∧ part.startingPosBody ≥ m1 then
              cutAt memOps p offset delivered pos1 b1 d1 m1 w1
                part.startingPosBody part
            else LoopOut.ok pos1 count1 b1 d1 m1 w1)
            (fun pos2 count2 b2 d2 m2 w2 =>
              if (lastPartWrite memOps p delivered rest.isEmpty pos2 count2 b2 d2 m2 w2).1 ≥ p.length then
                LoopOut.ok (lastPartWrite memOps p delivered rest.isEmpty pos2 count2 b2 d2 m2 w2).1 (lastPartWrite memOps p delivered rest.isEmpty pos2 count2 b2 d2 m2 w2).2.1 (lastPartWrite memOps p delivered rest.isEmpty pos2 count2 b2 d2 m2 w2).2.2.1 (lastPartWrite memOps p delivered rest.isEmpty pos2 count2 b2 d2 m2 w2).2.2.2.1 (lastPartWrite memOps p delivered rest.isEmpty pos2 count2 b2 d2 m2 w2).2.2.2.2.1 (lastPartWrite memOps p delivered rest.isEmpty pos2 count2 b2 d2 m2 w2).2.2.2.2.2
              else
                writeLoop memOps p offset delivered rest (lastPartWrite memOps p delivered rest.isEmpty pos2 count2 b2 d2 m2 w2).1 (lastPartWrite memOps p delivered rest.isEmpty pos2 count2 b2 d2 m2 w2).2.1 (lastPartWrite memOps p delivered rest.isEmpty pos2 count2 b2 d2 m2 w2).2.2.1 (lastPartWrite memOps p delivered rest.isEmpty pos2 count2 b2 d2 m2 w2).2.2.2.1 (lastPartWrite memOps p delivered rest.isEmpty pos2 count2 b2 d2 m2 w2).2.2.2.2.1 (lastPartWrite memOps p delivered rest.isEmpty pos2 count2 b2 d2 m2 w2).2.2.2.2.2) =
            LoopOut.panicked) ↔
          ((match (if part.startingPosBody > 0 ∧ part.startingPosBody ≥ m1 then
                if usub part.startingPosBody offset ≤ p.length then
                  some (usub part.startingPosBody offset, part.startingPosBody)
                else none
              else some (pos1, m1)) with
            | none => false
            | some (pos2, msgPos2) =>
              if (lastPartBound p rest.isEmpty pos2 msgPos2).1 ≥ p.length then true
              else boundsOK p offset rest (lastPartBound p rest.isEmpty pos2 msgPos2).1 (lastPartBound p rest.isEmpty pos2 msgPos2).2) = false)) := by
      intro pos1 count1 b1 d1 m1 w1 hom1 hpos1 hple1
      by_cases h2 : part.startingPosBody > 0 ∧ part.startingPosBody ≥ m1
      · rw [if_pos h2, if_pos h2]
        have homB : offset ≤ part.startingPosBody := le_trans hom1 h2.2
        have husub2 : usub part.startingPosBody offset =
            part.startingPosBody - offset := usub_eq _ _ homB hSPB
        by_cases hbd2 : usub part.startingPosBody offset ≤ p.length
        · rw [if_pos hbd2]
          have hlo : pos1 ≤ usub part.startingPosBody offset := by
            rw [husub2]
            omega
          obtain ⟨slice2, hg2, hsl2⟩ := goSlice_some p pos1
            (usub part.startingPosBody offset) hlo hbd2
          obtain ⟨b2, d2, hcut2, hb2, hc2, hcur2, ht2, hcl2⟩ :=
            cutAt_mem_spec p offset delivered pos1 b1 d1 m1 w1
              part.startingPosBody part slice2 hg2
          rw [hcut2]
          dsimp only [loopSeq]
          have hp2 : pos1 + slice2.length =
              usub part.startingPosBody offset := by
            rw [hsl2]
            omega
          rw [hp2]
          with_unfolding_all exact hstage3 (usub part.startingPosBody offset) slice2.length b2 d2 part.startingPosBody (w1 + slice2.length) homB husub2 hbd2
        · rw [if_neg hbd2]
          have hg2 : goSlice p pos1 (usub part.startingPosBody offset) =
              none := by
            apply goSlice_none
            intro hcontra
            exact hbd2 hcontra.2
          rw [cutAt_panic memOps p offset delivered pos1 b1 d1 m1 w1
            part.startingPosBody part hg2]
          simp [loopSeq]
      · rw [if_neg h2, if_neg h2]
        dsimp only [loopSeq]
        with_unfolding_all exact hstage3 pos1 count1 b1 d1 m1 w1 hom1 hpos1 hple1
    simp only [writeLoop, boundsOK]
    by_cases h1 : part.startingPos > 0 ∧ part.startingPos > msgPos
    · rw [if_pos h1, if_pos h1]
      have homS : offset ≤ part.startingPos := le_trans hom (le_of_lt h1.2)
      have husub1 : usub part.startingPos offset =
          part.startingPos - offset := usub_eq _ _ homS hSP
      by_cases hbd1 : usub part.startingPos offset ≤ p.length
      · rw [if_pos hbd1]
        have hlo : pos ≤ usub part.startingPos offset := by
          rw [husub1]
          omega
        obtain ⟨slice, hg1, hsl1⟩ := goSlice_some p pos
          (usub part.startingPos offset) hlo hbd1
        obtain ⟨b1, d1, hcut, hb1, hc1, hcur1, ht1, hcl1⟩ :=
          cutAt_mem_spec p offset delivered pos buf db msgPos written
            part.startingPos part slice hg1
        rw [hcut]
        dsimp only [loopSeq]
        have hp1 : pos + slice.length = usub part.startingPos offset := by
          rw [hsl1]
          omega
        rw [hp1]
        with_unfolding_all exact hstage2 (usub part.startingPos offset) slice.length b1 d1 part.startingPos (written + slice.length) homS husub1 hbd1
      · rw [if_neg hbd1]
        have hg1 : goSlice p pos (usub part.startingPos offset) = none := by
          apply goSlice_none
          intro hcontra
          exact hbd1 hcontra.2
        rw [cutAt_panic memOps p offset delivered pos buf db msgPos written
          part.startingPos part hg1]
        simp [loopSeq]
    · rw [if_neg h1, if_neg h1]
      dsimp only [loopSeq]
      with_unfolding_all exact hstage2 pos count buf db msgPos written hom hpos hple

/-- C10: a `Write` call carrying a non-empty MIME-part list avoids the
slice-bounds panic exactly when every part boundary that triggers a cut
lies within the bytes delivered in this call (`boundsOK`): for a
triggering part whose `StartingPos` or `StartingPosBody` minus the
call-entry position exceeds `len(p)`, the slice index falls outside the
valid range and `Write` panics, so `Write` is total only under that
precondition.  The hypotheses fix machine-sized part offsets and exclude
the unrelated header-capture panic of `fillVars`. -/
theorem c10_slice_bounds (st : SessionState ChunkSaverMemory) (p : List Nat)
    (vals : List (String × MetaVal)) (parts : List MimePart)
    (hv : st.envelope.values = some vals)
    (hm : lookupMeta vals "MimeParts" = some (.mimeParts parts))
    (hne : 0 < parts.length)
    (hfv : (fillVars parts st.subject st.toField st.fromField).isSome = true)
    (hb : ∀ pt ∈ parts,
      pt.startingPos < UintMod ∧ pt.startingPosBody < UintMod) :
    (sdWrite memOps st p ≠ .panicked ↔
      boundsOK p st.msgPos (parts.drop st.progress) 0 st.msgPos = true) := by
  unfold sdWrite
  rw [hv]
  dsimp only
  rw [hm]
  dsimp only
  rw [if_pos hne]
  obtain ⟨⟨subj, toF, fromF⟩, hf⟩ := Option.isSome_iff_exists.mp hfv
  rw [hf]
  dsimp only
  have hbd : ∀ pt ∈ parts.drop st.progress,
      pt.startingPos < UintMod ∧ pt.startingPosBody < UintMod :=
    fun pt hpt => hb pt (List.mem_of_mem_drop hpt)
  have hiff := writeLoop_mem_panic_iff p st.msgPos st.delivered
    (parts.drop st.progress) 0 0
    { st.chunkBuffer with current := parts.head? } st.db st.msgPos st.written
    hbd (le_refl _) (by omega) (Nat.zero_le _)
  cases hw : writeLoop memOps p st.msgPos st.delivered
      (parts.drop st.progress) 0 0
      { st.chunkBuffer with current := parts.head? } st.db st.msgPos
      st.written with
  | panicked =>
    have hfalse := hiff.mp hw
    simp [hfalse]
  | flushErr e c b d m w =>
    have htrue : boundsOK p st.msgPos (parts.drop st.progress) 0 st.msgPos =
        true := by
      cases hbo : boundsOK p st.msgPos (parts.drop st.progress) 0 st.msgPos with
      | true => rfl
      | false =>
        have hcontra := hiff.mpr hbo
        rw [hw] at hcontra
        simp at hcontra
    simp [htrue]
  | ok a c b d m w =>
    have htrue : boundsOK p st.msgPos (parts.drop st.progress) 0 st.msgPos =
        true := by
      cases hbo : boundsOK p st.msgPos (parts.drop st.progress) 0 st.msgPos with
      | true => rfl
      | false =>
        have hcontra := hiff.mpr hbo
        rw [hw] at hcontra
        simp at hcontra
    simp [htrue]

/-- Witness for the slice-bounds theorem: on the concrete session the
body boundary (3) lies within the five delivered bytes, so the bounds
mirror is satisfied and the `Write` does not panic. -/
theorem c10_slice_bounds_witness :
    (sdWrite memOps c1St [1, 2, 3, 4, 5] ≠ WriteResult.panicked ↔
      boundsOK [1, 2, 3, 4, 5] c1St.msgPos ([scPart].drop c1St.progress) 0
        c1St.msgPos = true) :=
  c10_slice_bounds c1St [1, 2, 3, 4, 5]
    [("MimeParts", .mimeParts [scPart]), ("messageID", .messageID 7)] [scPart]
    rfl rfl (by decide) (by decide) (by decide)
